import Mathlib

/- Verification development for the go-policy-plugin-engine repository.

   Shallow embedding of:
   - the policy registry and batch runtime (core/interfaces.go, core/main.go),
   - the build orchestration script (build.sh) including the go.mod replace
     loop and the optional container packaging stage,
   - the policy discovery and aggregator-source generation stage of
     the generator of imports (modelled from the specification where that
     source file is not part of the sources at hand).

   Go maps are modelled as insertion-ordered association lists: Go map
   assignment replaces in place or appends, which is exactly Go's update
   semantics; Go map iteration order is unspecified, and the embedding fixes
   the insertion order, which is one of the possible iteration orders. -/

namespace PolicyEngine

/-- Go's `error` values, abstracted to their message. `none` models `nil`. -/
abbrev Err := String

/-- Model of the `Policy` interface of core/interfaces.go: `Name()`,
`Execute(ctx, input)` and `Validate()`.  The input and output types are kept
abstract; `execute` returns `Except` for `(interface\x7b\x7d, error)` and
`validate` returns `Option Err` for `error`. -/
structure Policy (α β : Type) where
  name : String
  execute : α → Except Err β
  validate : Option Err

/-- Go map assignment `m[k] = v` on an insertion-ordered association list:
if the key is present its value is replaced in place, otherwise the binding
is appended at the end. -/
def mapInsert {γ : Type} : List (String × γ) → String → γ → List (String × γ)
  | [], k, v => [(k, v)]
  | (k', v') :: rest, k, v =>
    if k' = k then (k', v) :: rest else (k', v') :: mapInsert rest k v

/-- Go map read `m[k]` on an association list (first binding wins). -/
def mapLookup {γ : Type} : List (String × γ) → String → Option γ
  | [], _ => none
  | (k', v) :: rest, k => if k' = k then some v else mapLookup rest k

/-- Model of `PolicyRegistry` of core/interfaces.go: the `policies` map. -/
structure PolicyRegistry (α β : Type) where
  policies : List (String × Policy α β)

/-- Model of `NewPolicyRegistry`: an empty map. -/
def newPolicyRegistry {α β : Type} : PolicyRegistry α β := ⟨[]⟩

/-- Model of `(*PolicyRegistry).Register`: calls `Validate()` first; on a
validation error the error is returned and the map is untouched; otherwise
the policy is stored under its `Name()`.  The Go in-place mutation is
modelled by returning the updated registry alongside the returned error. -/
def PolicyRegistry.register {α β : Type} (r : PolicyRegistry α β)
    (p : Policy α β) : PolicyRegistry α β × Option Err :=
  match p.validate with
  | some e => (r, some e)
  | none => (⟨mapInsert r.policies p.name p⟩, none)

/-- Model of `(*PolicyRegistry).Get`: map lookup (the Go boolean is the
`isSome` of the option). -/
def PolicyRegistry.get {α β : Type} (r : PolicyRegistry α β) (nm : String) :
    Option (Policy α β) :=
  mapLookup r.policies nm

/-- Model of `(*PolicyRegistry).List`: the registered names, in the map's
iteration order (insertion order in this embedding; Go leaves it
unspecified). -/
def PolicyRegistry.list {α β : Type} (r : PolicyRegistry α β) : List String :=
  r.policies.map Prod.fst

/-- Observable outcome of `main` of core/main.go: whether the empty-registry
warning was logged, the names `Execute` was invoked on (in order), the
successfully produced results, the names whose execution error was logged,
and whether the process terminated successfully. -/
structure BatchOutcome (β : Type) where
  warnedEmpty : Bool
  executed : List String
  results : List (String × β)
  errored : List String
  exitSuccess : Bool

/-- The `for _, name := range policies` loop of `main`: look each name up,
run `Execute`; on error log it and `continue`, otherwise record the result.
Returns (executed names, results, errored names). -/
def execLoop {α β : Type} (r : PolicyRegistry α β) (input : α) :
    List String → List String × List (String × β) × List String
  | [] => ([], [], [])
  | nm :: rest =>
    match r.get nm with
    | none => execLoop r input rest
    | some p =>
      match p.execute input with
      | Except.ok out =>
        let t := execLoop r input rest
        (nm :: t.1, (nm, out) :: t.2.1, t.2.2)
      | Except.error _ =>
        let t := execLoop r input rest
        (nm :: t.1, t.2.1, nm :: t.2.2)

/-- Model of `main` of core/main.go: read `List()`; if empty, warn and
return (success); otherwise run the execution loop over the listed names and
return successfully. -/
def runMain {α β : Type} (r : PolicyRegistry α β) (input : α) :
    BatchOutcome β :=
  if r.list.isEmpty then
    ⟨true, [], [], [], true⟩
  else
    let t := execLoop r input r.list
    ⟨false, t.1, t.2.1, t.2.2, true⟩

/-- The results the batch produces over an association list of policies:
one entry per policy whose `Execute` succeeds, in order. -/
def dispatchResults {α β : Type} (ps : List (String × Policy α β))
    (input : α) : List (String × β) :=
  ps.filterMap fun q =>
    match q.2.execute input with
    | Except.ok out => some (q.1, out)
    | Except.error _ => none

/-- The names of the policies whose `Execute` errors, in order. -/
def dispatchErrors {α β : Type} (ps : List (String × Policy α β))
    (input : α) : List String :=
  ps.filterMap fun q =>
    match q.2.execute input with
    | Except.ok _ => none
    | Except.error _ => some q.1

theorem mapLookup_mapInsert_self {γ : Type} (m : List (String × γ))
    (k : String) (v : γ) : mapLookup (mapInsert m k v) k = some v := by
  induction m with
  | nil => simp [mapInsert, mapLookup]
  | cons hd tl ih =>
    obtain ⟨k', v'⟩ := hd
    by_cases h : k' = k
    · simp [mapInsert, mapLookup, h]
    · simp [mapInsert, mapLookup, h, ih]

theorem mapLookup_mapInsert_ne {γ : Type} (m : List (String × γ))
    (k k' : String) (v : γ) (h : k' ≠ k) :
    mapLookup (mapInsert m k v) k' = mapLookup m k' := by
  have hks : ¬k = k' := fun hh => h hh.symm
  induction m with
  | nil => simp [mapInsert, mapLookup, hks]
  | cons hd tl ih =>
    obtain ⟨k₀, v₀⟩ := hd
    by_cases h₀ : k₀ = k
    · subst h₀
      simp [mapInsert, mapLookup, hks]
    · simp only [mapInsert, if_neg h₀, mapLookup]
      by_cases h₁ : k₀ = k'
      · simp [h₁]
      · simp [h₁, ih]

theorem keys_mapInsert {γ : Type} (m : List (String × γ)) (k : String)
    (v : γ) :
    (mapInsert m k v).map Prod.fst =
      if k ∈ m.map Prod.fst then m.map Prod.fst
      else m.map Prod.fst ++ [k] := by
  induction m with
  | nil => simp [mapInsert]
  | cons hd tl ih =>
    obtain ⟨k₀, v₀⟩ := hd
    by_cases h₀ : k₀ = k
    · simp [mapInsert, h₀]
    · simp only [mapInsert, if_neg h₀, List.map_cons, List.mem_cons, ih]
      by_cases h₁ : k ∈ tl.map Prod.fst
      · simp [h₁]
      · have h₂ : ¬k = k₀ := fun hh => h₀ hh.symm
        simp [h₁, h₂]

theorem keys_mapInsert_of_mem {γ : Type} (m : List (String × γ))
    (k : String) (v : γ) (h : k ∈ m.map Prod.fst) :
    (mapInsert m k v).map Prod.fst = m.map Prod.fst := by
  simp [keys_mapInsert, h]

theorem nodup_keys_mapInsert {γ : Type} (m : List (String × γ)) (k : String)
    (v : γ) (h : (m.map Prod.fst).Nodup) :
    ((mapInsert m k v).map Prod.fst).Nodup := by
  rw [keys_mapInsert]
  by_cases hk : k ∈ m.map Prod.fst
  · simpa [hk] using h
  · simp only [if_neg hk]
    rw [List.nodup_append]
    refine ⟨h, List.nodup_singleton k, ?_⟩
    intro a ha hb
    rw [List.mem_singleton.mp hb] at ha
    exact hk ha

theorem mapLookup_of_mem_nodup {γ : Type} (ps : List (String × γ))
    (h : (ps.map Prod.fst).Nodup) :
    ∀ q ∈ ps, mapLookup ps q.1 = some q.2 := by
  induction ps with
  | nil => intro q hq; simp at hq
  | cons hd tl ih =>
    intro q hq
    obtain ⟨k₀, v₀⟩ := hd
    rcases List.mem_cons.mp hq with h₁ | h₁
    · subst h₁; simp [mapLookup]
    · have hk : k₀ ≠ q.1 := by
        intro hh
        have : q.1 ∈ tl.map Prod.fst := List.mem_map_of_mem Prod.fst h₁
        rw [← hh] at this
        exact (List.nodup_cons.mp h).1 this
      simp only [mapLookup, if_neg hk]
      exact ih (List.nodup_cons.mp h).2 q h₁

theorem mem_keys_of_mapLookup {γ : Type} (m : List (String × γ))
    (k : String) (v : γ) (h : mapLookup m k = some v) :
    k ∈ m.map Prod.fst := by
  induction m with
  | nil => simp [mapLookup] at h
  | cons hd tl ih =>
    obtain ⟨k₀, v₀⟩ := hd
    by_cases h₀ : k₀ = k
    · simp [h₀]
    · simp only [mapLookup, if_neg h₀] at h
      simp [ih h]

theorem execLoop_eq {α β : Type} (r : PolicyRegistry α β) (input : α)
    (ps : List (String × Policy α β))
    (hget : ∀ q ∈ ps, r.get q.1 = some q.2) :
    execLoop r input (ps.map Prod.fst) =
      (ps.map Prod.fst, dispatchResults ps input, dispatchErrors ps input) := by
  induction ps with
  | nil => simp [execLoop, dispatchResults, dispatchErrors]
  | cons q ps ih =>
    have hq : r.get q.1 = some q.2 := hget q (List.mem_cons_self q ps)
    have ihh := ih fun q' hq' => hget q' (List.mem_cons_of_mem q hq')
    simp only [List.map_cons, execLoop, hq]
    cases hex : q.2.execute input with
    | ok out =>
      simp [ihh, dispatchResults, dispatchErrors, List.filterMap_cons, hex]
    | error e =>
      simp [ihh, dispatchResults, dispatchErrors, List.filterMap_cons, hex]

theorem runMain_of_ne_nil {α β : Type} (r : PolicyRegistry α β) (input : α)
    (h : r.list ≠ []) :
    runMain r input = ⟨false, (execLoop r input r.list).1,
      (execLoop r input r.list).2.1, (execLoop r input r.list).2.2, true⟩ := by
  simp [runMain, h]

/-- A concrete valid policy named "alpha", used by witnesses. -/
def pAlpha : Policy Unit Unit := ⟨"alpha", fun _ => Except.ok (), none⟩

/-- A concrete valid policy named "beta", used by witnesses. -/
def pBeta : Policy Unit Unit := ⟨"beta", fun _ => Except.ok (), none⟩

/-- A second, distinguishable valid policy also named "alpha". -/
def pAlphaV2 : Policy Unit Unit := ⟨"alpha", fun _ => Except.error "v2", none⟩

/-- A policy whose `Validate` returns an error. -/
def pInvalid : Policy Unit Unit :=
  ⟨"gamma", fun _ => Except.ok (), some "bad config"⟩

/-- A policy whose `Execute` returns an error. -/
def pBoom : Policy Unit Unit := ⟨"boom", fun _ => Except.error "exec failed", none⟩

/-- C1: the batch runtime does NOT iterate in name-sorted order.  The source
iterates a Go map (iteration order unspecified; this embedding realizes the
insertion order, one admissible order): after registering "beta" and then
"alpha", `List()` — and hence the order `main` executes policies in — is
["beta", "alpha"], which is not sorted by name.  This evaluates the code at
the failing input of the claim. -/
theorem c1_dispatch_order_not_sorted :
    (((newPolicyRegistry : PolicyRegistry Unit Unit).register pBeta).1.register
        pAlpha).1.list = ["beta", "alpha"] ∧
    (runMain (((newPolicyRegistry : PolicyRegistry Unit Unit).register
        pBeta).1.register pAlpha).1 ()).executed = ["beta", "alpha"] ∧
    ¬ List.Sorted (· ≤ ·) ["beta", "alpha"] := by
  refine ⟨rfl, rfl, ?_⟩
  intro hs
  have hle : "beta" ≤ "alpha" := (List.sorted_cons.mp hs).1 "alpha" (by simp)
  rw [String.le_iff_toList_le] at hle
  revert hle
  decide

/-- C4: batch isolation — when one registered policy's `Execute` errors, the
dispatcher logs that name, skips its result, and still executes every other
policy in the batch, producing exactly their results. -/
theorem c4_batch_isolation {α β : Type} (A B : List (String × Policy α β))
    (nm : String) (p : Policy α β) (input : α) (e : Err)
    (hnd : ((A ++ (nm, p) :: B).map Prod.fst).Nodup)
    (he : p.execute input = Except.error e) :
    (runMain (⟨A ++ (nm, p) :: B⟩ : PolicyRegistry α β) input).results =
      dispatchResults A input ++ dispatchResults B input ∧
    (runMain (⟨A ++ (nm, p) :: B⟩ : PolicyRegistry α β) input).errored =
      dispatchErrors A input ++ nm :: dispatchErrors B input ∧
    (runMain (⟨A ++ (nm, p) :: B⟩ : PolicyRegistry α β) input).executed =
      (A ++ (nm, p) :: B).map Prod.fst := by
  have hget : ∀ q ∈ A ++ (nm, p) :: B,
      (⟨A ++ (nm, p) :: B⟩ : PolicyRegistry α β).get q.1 = some q.2 :=
    mapLookup_of_mem_nodup (A ++ (nm, p) :: B) hnd
  have hloop := execLoop_eq (⟨A ++ (nm, p) :: B⟩ : PolicyRegistry α β) input
    (A ++ (nm, p) :: B) hget
  have hne : (⟨A ++ (nm, p) :: B⟩ : PolicyRegistry α β).list ≠ [] := by
    simp [PolicyRegistry.list]
  have hrm := runMain_of_ne_nil (⟨A ++ (nm, p) :: B⟩ : PolicyRegistry α β)
    input hne
  have hlist : (⟨A ++ (nm, p) :: B⟩ : PolicyRegistry α β).list =
      (A ++ (nm, p) :: B).map Prod.fst := rfl
  rw [hlist] at hrm
  rw [hrm, hloop]
  refine ⟨?_, ?_, rfl⟩
  · simp [dispatchResults, List.filterMap_append, List.filterMap_cons, he]
  · simp [dispatchErrors, List.filterMap_append, List.filterMap_cons, he]

/-- C4 witness: three registered policies where the second's `Execute`
errors; results are still produced for the first and third, the error is
logged, and all three are executed. -/
theorem c4_witness :
    (runMain (⟨[("alpha", pAlpha), ("boom", pBoom), ("beta", pBeta)]⟩ :
        PolicyRegistry Unit Unit) ()).results = [("alpha", ()), ("beta", ())] ∧
    (runMain (⟨[("alpha", pAlpha), ("boom", pBoom), ("beta", pBeta)]⟩ :
        PolicyRegistry Unit Unit) ()).errored = ["boom"] ∧
    (runMain (⟨[("alpha", pAlpha), ("boom", pBoom), ("beta", pBeta)]⟩ :
        PolicyRegistry Unit Unit) ()).executed = ["alpha", "boom", "beta"] := by
  have h := c4_batch_isolation [("alpha", pAlpha)] [("beta", pBeta)] "boom"
    pBoom () "exec failed" (by decide) rfl
  exact ⟨h.1.trans rfl, h.2.1.trans rfl, h.2.2.trans rfl⟩

/-- C5: `Register` calls `Validate` on the incoming policy first; a
validation error is returned and the registry mapping is unchanged; on `nil`
the policy is added under its `Name()`, `nil` is returned, and every other
entry is untouched. -/
theorem c5_register_validates_first {α β : Type} (r : PolicyRegistry α β)
    (p : Policy α β) :
    (∀ e, p.validate = some e → r.register p = (r, some e)) ∧
    (p.validate = none →
      (r.register p).2 = none ∧
      (r.register p).1.get p.name = some p ∧
      ∀ nm, nm ≠ p.name → (r.register p).1.get nm = r.get nm) := by
  constructor
  · intro e he
    simp [PolicyRegistry.register, he]
  · intro h
    refine ⟨?_, ?_, ?_⟩
    · simp [PolicyRegistry.register, h]
    · simp [PolicyRegistry.register, h, PolicyRegistry.get,
        mapLookup_mapInsert_self]
    · intro nm hnm
      simp [PolicyRegistry.register, h, PolicyRegistry.get,
        mapLookup_mapInsert_ne _ _ _ _ hnm]

/-- C5 witness: a failing `Validate` leaves the empty registry unchanged and
returns the error; a passing one stores the policy under its name. -/
theorem c5_witness :
    (newPolicyRegistry : PolicyRegistry Unit Unit).register pInvalid =
      (newPolicyRegistry, some "bad config") ∧
    ((newPolicyRegistry : PolicyRegistry Unit Unit).register pAlpha).1.get
      "alpha" = some pAlpha := by
  refine ⟨(c5_register_validates_first newPolicyRegistry pInvalid).1
    "bad config" rfl, ?_⟩
  exact ((c5_register_validates_first newPolicyRegistry pAlpha).2 rfl).2.1

/-- C9: with no policy registered, `main` logs the warning and terminates
with success without calling `Execute` on anything. -/
theorem c9_empty_registry_warns {α β : Type} (r : PolicyRegistry α β)
    (input : α) (h : r.list = []) :
    runMain r input = ⟨true, [], [], [], true⟩ := by
  simp [runMain, h]

/-- C9 witness: the freshly created registry triggers the warning path. -/
theorem c9_witness :
    runMain (newPolicyRegistry : PolicyRegistry Unit Unit) () =
      ⟨true, [], [], [], true⟩ :=
  c9_empty_registry_warns newPolicyRegistry () rfl

/-- C10: registering a second valid policy under an already-registered name
silently replaces the earlier entry: `Get` then returns the later instance,
the name list (hence its length, the number of distinct names) is unchanged,
and every `Register` call preserves distinctness of the listed names. -/
theorem c10_duplicate_name_replaces {α β : Type} (r : PolicyRegistry α β)
    (q : Policy α β) (hq : q.validate = none)
    (hp : ∃ p, r.get q.name = some p) :
    (r.register q).1.get q.name = some q ∧
    (r.register q).1.list = r.list ∧
    ∀ (r' : PolicyRegistry α β) (s : Policy α β),
      r'.list.Nodup → ((r'.register s).1.list).Nodup := by
  obtain ⟨p, hp⟩ := hp
  refine ⟨?_, ?_, ?_⟩
  · simp [PolicyRegistry.register, hq, PolicyRegistry.get,
      mapLookup_mapInsert_self]
  · have hkm : q.name ∈ r.policies.map Prod.fst :=
      mem_keys_of_mapLookup _ _ _ hp
    simp [PolicyRegistry.register, hq, PolicyRegistry.list,
      keys_mapInsert_of_mem _ _ _ hkm]
  · intro r' s hnd
    cases hs : s.validate with
    | some e =>
      simpa [PolicyRegistry.register, hs, PolicyRegistry.list] using hnd
    | none =>
      simpa [PolicyRegistry.register, hs, PolicyRegistry.list] using
        nodup_keys_mapInsert r'.policies s.name s hnd

/-- C10 witness: re-registering under "alpha" replaces the first instance
and leaves the name list unchanged at ["alpha"]. -/
theorem c10_witness :
    (((newPolicyRegistry : PolicyRegistry Unit Unit).register
        pAlpha).1.register pAlphaV2).1.get "alpha" = some pAlphaV2 ∧
    (((newPolicyRegistry : PolicyRegistry Unit Unit).register
        pAlpha).1.register pAlphaV2).1.list = ["alpha"] := by
  have h := c10_duplicate_name_replaces
    ((newPolicyRegistry : PolicyRegistry Unit Unit).register pAlpha).1
    pAlphaV2 rfl ⟨pAlpha, rfl⟩
  exact ⟨h.1, h.2.1.trans rfl⟩

/-- A discovered policy module: the directory name under the policy root and
the import identifier its manifest (go.mod `module` line) declares. -/
structure PolicyModule where
  dir : String
  importPath : String
deriving DecidableEq

/-- A directory immediately under the mounted policy root, as the pipeline
observes it: whether a manifest (go.mod) is present, the import identifier
extracted from it (`none` when no identifier is parsable), and whether the
conventional policy source file is present. -/
structure ScanDir where
  name : String
  hasManifest : Bool
  manifestId : Option String
  hasPolicySource : Bool
deriving DecidableEq

/-- Modelled from the spec: the discovery walk of the import generator
(import-generator/main.go, whose source is not among the files at hand).
Per §4.1 a directory holding both a manifest-declared identifier and the
conventional source file is recognized; a directory missing either is
skipped; a manifest present but with no extractable identifier is a fatal
discovery error. -/
def scanDirs : List ScanDir → Except Err (List PolicyModule)
  | [] => Except.ok []
  | d :: rest =>
    if d.hasManifest then
      match d.manifestId with
      | none => Except.error ("unparsable manifest in " ++ d.name)
      | some mid =>
        if d.hasPolicySource then
          match scanDirs rest with
          | Except.error e => Except.error e
          | Except.ok ms => Except.ok (⟨d.name, mid⟩ :: ms)
        else scanDirs rest
    else scanDirs rest

/-- The per-directory recognition function of the scanner, for the success
characterization. -/
def recog (d : ScanDir) : Option PolicyModule :=
  if d.hasManifest then
    match d.manifestId with
    | none => none
    | some mid => if d.hasPolicySource then some ⟨d.name, mid⟩ else none
  else none

/-- Ordering of modules by declared import identifier. -/
def modLe (a b : PolicyModule) : Prop := a.importPath ≤ b.importPath

instance : DecidableRel modLe := fun a b =>
  inferInstanceAs (Decidable (a.importPath ≤ b.importPath))

instance : IsTotal PolicyModule modLe :=
  ⟨fun a b => le_total a.importPath b.importPath⟩

instance : IsTrans PolicyModule modLe :=
  ⟨fun _ _ _ hab hbc => le_trans hab hbc⟩

/-- Modelled from the spec: the discovered set ordered by declared import
identifier (§4.1: sorted for determinism). -/
def sortModules (ms : List PolicyModule) : List PolicyModule :=
  List.insertionSort modLe ms

/-- Modelled from the spec: full discovery — scan, reject colliding declared
identifiers (§3: a fatal discovery-time error, not last-write-wins), sort by
identifier. -/
def discover (dirs : List ScanDir) : Except Err (List PolicyModule) :=
  match scanDirs dirs with
  | Except.error e => Except.error e
  | Except.ok ms =>
    if (ms.map PolicyModule.importPath).Nodup then Except.ok (sortModules ms)
    else Except.error "colliding declared import identifiers"

/-- Modelled from the spec: alias base name — the final path segment of
the import identifier (§4.2). -/
def aliasBase (importPath : String) : String :=
  (importPath.splitOn "/").getLastD ""

/-- Modelled from the spec: collision-free alias assignment — the base name
from the final path segment, disambiguated with a numeric discriminator in
the order of the (sorted) module list (§4.2). -/
def assignAliases (ms : List PolicyModule) : List (String × PolicyModule) :=
  (ms.foldl
    (fun acc m =>
      let b := aliasBase m.importPath
      let n := acc.2.count b
      let a := if n = 0 then b else b ++ toString n
      (acc.1 ++ [(a, m)], acc.2 ++ [b]))
    (([], []) : List (String × PolicyModule) × List String)).1

/-- Modelled from the spec: the aggregator source text — machine-generated
header, one aliased import per module, and one registration call per module
in an initialization block, in the given order (§4.2, §6). -/
def emitSorted (ms : List PolicyModule) : String :=
  let aliased := assignAliases ms
  "// Code generated by import-generator. DO NOT EDIT.\n\npackage main\n\nimport (\n"
    ++ String.join (aliased.map fun q =>
        "\t" ++ q.1 ++ " \"" ++ q.2.importPath ++ "\"\n")
    ++ ")\n\nfunc init() \x7b\n"
    ++ String.join (aliased.map fun q =>
        "\tRegisterPolicy(&" ++ q.1 ++ ".Policy\x7b\x7d)\n")
    ++ "\x7d\n"

/-- Modelled from the spec: aggregator generation from a discovered module
set — sort by import identifier, then emit. -/
def emitAggregator (ms : List PolicyModule) : String :=
  emitSorted (sortModules ms)

/-- A go.mod replace table: module path → replacement directory. -/
abbrev GoMod := List (String × String)

/-- The container path of a mounted policy directory, as the shell loop of
build.sh sees it (`for policy_dir in /policies/*/`). -/
def replaceDir (d : ScanDir) : String := "/policies/" ++ d.name ++ "/"

/-- One iteration of the build.sh replace loop: when the directory has a
go.mod and a module path was extracted from it, run
`go mod edit -replace` for it (insert-or-overwrite); otherwise leave the
manifest alone. -/
def rewriteStep (m : GoMod) (d : ScanDir) : GoMod :=
  if d.hasManifest then
    match d.manifestId with
    | some mp => mapInsert m mp (replaceDir d)
    | none => m
  else m

/-- The whole replace loop of build.sh over the policy directories. -/
def rewriteManifest (dirs : List ScanDir) (m : GoMod) : GoMod :=
  dirs.foldl rewriteStep m

/-- The module paths the replace loop actually writes, in loop order. -/
def effKeys (dirs : List ScanDir) : List String :=
  dirs.filterMap fun d => if d.hasManifest then d.manifestId else none

/-- External effects build.sh depends on: whether the Docker socket is
mounted, whether the external `docker build` call succeeds, whether
`go mod tidy` and the compile succeed, and the image repo/tag environment
variables. -/
structure BuildEnv where
  socketPresent : Bool
  dockerBuildOk : Bool
  tidyOk : Bool
  compileOk : Bool
  imageRepoEnv : Option String
  imageTagEnv : Option String
deriving DecidableEq

/-- Observable outcome of the packaging stage of build.sh. -/
structure PackOutcome where
  exitCode : Nat
  warnedNoSocket : Bool
  artifacts : List String
deriving DecidableEq

/-- Model of the packaging stage of build.sh (steps 4-5): if the Docker
socket is not mounted, print the warning and `exit 0` with the compiled
binary as the only artifact; otherwise run `docker build` — under `set -e`
a failing call terminates the script with non-zero status, a successful one
ends with status 0 and the image (named from the environment with defaults)
as an additional artifact. -/
def packagingStage (env : BuildEnv) : PackOutcome :=
  if env.socketPresent then
    if env.dockerBuildOk then
      ⟨0, false, ["/app/core/policy-engine",
        env.imageRepoEnv.getD "policy-engine" ++ ":" ++
          env.imageTagEnv.getD "latest"]⟩
    else ⟨1, false, ["/app/core/policy-engine"]⟩
  else ⟨0, true, ["/app/core/policy-engine"]⟩

/-- Observable outcome of a whole build.sh run. -/
structure PipelineResult where
  exitCode : Nat
  manifest : GoMod
  aggregator : Option String
  warnedNoSocket : Bool
  artifacts : List String

/-- Model of the full build.sh pipeline under `set -e`: discovery plus
aggregator generation (step 1, the import generator; a discovery error
aborts the script before go.mod is touched), the replace loop and
`go mod tidy` (step 2), the compile (step 3), then the packaging stage. -/
def runPipeline (dirs : List ScanDir) (m0 : GoMod) (env : BuildEnv) :
    PipelineResult :=
  match discover dirs with
  | Except.error _ => ⟨1, m0, none, false, []⟩
  | Except.ok mods =>
    let agg := emitAggregator mods
    let m1 := rewriteManifest dirs m0
    if env.tidyOk then
      if env.compileOk then
        let pk := packagingStage env
        ⟨pk.exitCode, m1, some agg, pk.warnedNoSocket, pk.artifacts⟩
      else ⟨1, m1, some agg, false, []⟩
    else ⟨1, m1, some agg, false, []⟩

theorem scanDirs_ok_eq (dirs : List ScanDir) (ms : List PolicyModule)
    (h : scanDirs dirs = Except.ok ms) : ms = dirs.filterMap recog := by
  induction dirs generalizing ms with
  | nil =>
    simp only [scanDirs, Except.ok.injEq] at h
    simp [← h]
  | cons d rest ih =>
    cases hm : d.hasManifest with
    | false =>
      simp only [scanDirs, hm, Bool.false_eq_true, if_false] at h
      simp [List.filterMap_cons, recog, hm, ih ms h]
    | true =>
      cases hid : d.manifestId with
      | none => simp [scanDirs, hm, hid] at h
      | some mid =>
        cases hs : d.hasPolicySource with
        | false =>
          simp only [scanDirs, hm, hid, hs, if_true, Bool.false_eq_true,
            if_false] at h
          simp [List.filterMap_cons, recog, hm, hid, hs, ih ms h]
        | true =>
          cases hrec : scanDirs rest with
          | error e => simp [scanDirs, hm, hid, hs, hrec] at h
          | ok ms' =>
            simp only [scanDirs, hm, hid, hs, hrec, if_true,
              Except.ok.injEq] at h
            simp [List.filterMap_cons, recog, hm, hid, hs, ← h, ih ms' hrec]

theorem scanDirs_error_of_unparsable (dirs : List ScanDir) (d : ScanDir)
    (hd : d ∈ dirs) (h1 : d.hasManifest = true) (h2 : d.manifestId = none) :
    ∃ e, scanDirs dirs = Except.error e := by
  induction dirs with
  | nil => simp at hd
  | cons d₀ rest ih =>
    rcases List.mem_cons.mp hd with h | h
    · subst h
      exact ⟨"unparsable manifest in " ++ d.name, by simp [scanDirs, h1, h2]⟩
    · obtain ⟨e, he⟩ := ih h
      cases hm : d₀.hasManifest with
      | false => exact ⟨e, by simp [scanDirs, hm, he]⟩
      | true =>
        cases hid : d₀.manifestId with
        | none =>
          exact ⟨"unparsable manifest in " ++ d₀.name,
            by simp [scanDirs, hm, hid]⟩
        | some mid =>
          cases hs : d₀.hasPolicySource with
          | false => exact ⟨e, by simp [scanDirs, hm, hid, hs, he]⟩
          | true => exact ⟨e, by simp [scanDirs, hm, hid, hs, he]⟩

theorem not_nodup_double (A B C : List String) (x : String) :
    ¬ (A ++ x :: (B ++ x :: C)).Nodup := by
  intro h
  have h1 : List.Sublist [x, x] (x :: (B ++ x :: C)) := by
    refine List.Sublist.cons₂ x ?_
    refine List.Sublist.trans ?_ (List.sublist_append_right B (x :: C))
    exact List.Sublist.cons₂ x (List.nil_sublist C)
  have hsub : List.Sublist [x, x] (A ++ x :: (B ++ x :: C)) :=
    List.Sublist.trans h1 (List.sublist_append_right A _)
  have hxx := List.Nodup.sublist hsub h
  simp at hxx

/-- C3 (modelled from the spec: the discovery stage lives in the import
generator main, not among the sources at hand): a policy directory
whose manifest yields no parsable import identifier aborts the pipeline with
a non-zero exit before any manifest or codegen mutation. -/
theorem c3_unparsable_manifest_fatal (dirs : List ScanDir) (d : ScanDir)
    (m0 : GoMod) (env : BuildEnv) (hd : d ∈ dirs)
    (h1 : d.hasManifest = true) (h2 : d.manifestId = none) :
    (runPipeline dirs m0 env).exitCode ≠ 0 ∧
    (runPipeline dirs m0 env).manifest = m0 ∧
    (runPipeline dirs m0 env).aggregator = none := by
  obtain ⟨e, he⟩ := scanDirs_error_of_unparsable dirs d hd h1 h2
  have hdisc : discover dirs = Except.error e := by simp [discover, he]
  simp [runPipeline, hdisc]

/-- C3 witness: a single directory with a manifest but no parsable
identifier aborts the run and leaves go.mod and imports.go untouched. -/
theorem c3_witness :
    (runPipeline [⟨"broken", true, none, true⟩] []
        ⟨true, true, true, true, none, none⟩).exitCode ≠ 0 ∧
    (runPipeline [⟨"broken", true, none, true⟩] []
        ⟨true, true, true, true, none, none⟩).manifest = [] ∧
    (runPipeline [⟨"broken", true, none, true⟩] []
        ⟨true, true, true, true, none, none⟩).aggregator = none :=
  c3_unparsable_manifest_fatal _ ⟨"broken", true, none, true⟩ _ _
    (List.mem_singleton.mpr rfl) rfl rfl

/-- C2 (modelled from the spec: the discovery stage lives in the import
generator main, not among the sources at hand): two different
on-disk modules declaring the same import identifier are a fatal
discovery-time error; the pipeline exits non-zero before any manifest
mutation, so no substitution directive of the second module ever overwrites
the first. -/
theorem c2_duplicate_identifier_fatal (D1 D2 D3 : List ScanDir)
    (d1 d2 : ScanDir) (m0 : GoMod) (env : BuildEnv) (mid : String)
    (h11 : d1.hasManifest = true) (h12 : d1.manifestId = some mid)
    (h13 : d1.hasPolicySource = true)
    (h21 : d2.hasManifest = true) (h22 : d2.manifestId = some mid)
    (h23 : d2.hasPolicySource = true) :
    (runPipeline (D1 ++ d1 :: (D2 ++ d2 :: D3)) m0 env).exitCode ≠ 0 ∧
    (runPipeline (D1 ++ d1 :: (D2 ++ d2 :: D3)) m0 env).manifest = m0 ∧
    (runPipeline (D1 ++ d1 :: (D2 ++ d2 :: D3)) m0 env).aggregator = none := by
  have hdisc : ∃ e, discover (D1 ++ d1 :: (D2 ++ d2 :: D3)) =
      Except.error e := by
    cases hscan : scanDirs (D1 ++ d1 :: (D2 ++ d2 :: D3)) with
    | error e => exact ⟨e, by simp [discover, hscan]⟩
    | ok ms =>
      have hms := scanDirs_ok_eq _ _ hscan
      have hshape : (D1 ++ d1 :: (D2 ++ d2 :: D3)).filterMap recog =
          D1.filterMap recog ++ (⟨d1.name, mid⟩ : PolicyModule) ::
            (D2.filterMap recog ++
              (⟨d2.name, mid⟩ : PolicyModule) :: D3.filterMap recog) := by
        simp [List.filterMap_append, List.filterMap_cons, recog, h11, h12,
          h13, h21, h22, h23]
      have hnn : ¬ (ms.map PolicyModule.importPath).Nodup := by
        rw [hms, hshape]
        simp only [List.map_append, List.map_cons]
        exact not_nodup_double _ _ _ mid
      exact ⟨"colliding declared import identifiers",
        by simp [discover, hscan, hnn]⟩
  obtain ⟨e, he⟩ := hdisc
  simp [runPipeline, he]

/-- C2 witness: two directories both declaring "org/p" abort the run with
the manifest untouched and no aggregator written. -/
theorem c2_witness :
    (runPipeline [⟨"alpha", true, some "org/p", true⟩,
        ⟨"beta", true, some "org/p", true⟩] []
        ⟨true, true, true, true, none, none⟩).exitCode ≠ 0 ∧
    (runPipeline [⟨"alpha", true, some "org/p", true⟩,
        ⟨"beta", true, some "org/p", true⟩] []
        ⟨true, true, true, true, none, none⟩).manifest = [] ∧
    (runPipeline [⟨"alpha", true, some "org/p", true⟩,
        ⟨"beta", true, some "org/p", true⟩] []
        ⟨true, true, true, true, none, none⟩).aggregator = none :=
  c2_duplicate_identifier_fatal [] [] [] ⟨"alpha", true, some "org/p", true⟩
    ⟨"beta", true, some "org/p", true⟩ [] ⟨true, true, true, true, none, none⟩
    "org/p" rfl rfl rfl rfl rfl rfl

/-- C6: the packaging stage exits non-zero iff packaging was attempted and
the external docker build call failed; with the socket absent it warns,
exits 0, and leaves the compiled binary as the sole artifact. -/
theorem c6_packaging_exit_iff (env : BuildEnv) :
    ((packagingStage env).exitCode ≠ 0 ↔
      env.socketPresent = true ∧ env.dockerBuildOk = false) ∧
    (env.socketPresent = false →
      (packagingStage env).warnedNoSocket = true ∧
      (packagingStage env).exitCode = 0 ∧
      (packagingStage env).artifacts = ["/app/core/policy-engine"]) := by
  obtain ⟨sp, db, t, c, ir, it⟩ := env
  cases sp <;> cases db <;> simp [packagingStage]

/-- C6 witness: socket absent gives warning, exit 0, binary only; socket
present with a failing docker build gives non-zero exit. -/
theorem c6_witness :
    (packagingStage ⟨false, true, true, true, none, none⟩).warnedNoSocket =
        true ∧
    (packagingStage ⟨false, true, true, true, none, none⟩).exitCode = 0 ∧
    (packagingStage ⟨false, true, true, true, none, none⟩).artifacts =
        ["/app/core/policy-engine"] ∧
    (packagingStage ⟨true, false, true, true, none, none⟩).exitCode ≠ 0 := by
  have h1 := (c6_packaging_exit_iff ⟨false, true, true, true, none, none⟩).2
    rfl
  have h2 := (c6_packaging_exit_iff ⟨true, false, true, true, none,
    none⟩).1.mpr ⟨rfl, rfl⟩
  exact ⟨h1.1, h1.2.1, h1.2.2, h2⟩

theorem mapInsert_self {γ : Type} (m : List (String × γ)) (k : String)
    (v : γ) (h : mapLookup m k = some v) : mapInsert m k v = m := by
  induction m with
  | nil => simp [mapLookup] at h
  | cons hd tl ih =>
    obtain ⟨k₀, v₀⟩ := hd
    by_cases h₀ : k₀ = k
    · subst h₀
      have hv : v₀ = v := by simpa [mapLookup] using h
      simp [mapInsert, hv]
    · simp only [mapLookup, if_neg h₀] at h
      simp [mapInsert, h₀, ih h]

theorem rewriteManifest_cons (d : ScanDir) (rest : List ScanDir) (m : GoMod) :
    rewriteManifest (d :: rest) m = rewriteManifest rest (rewriteStep m d) :=
  rfl

theorem rewriteManifest_noop (dirs : List ScanDir) (m : GoMod)
    (h : ∀ d ∈ dirs, ∀ mid, d.hasManifest = true → d.manifestId = some mid →
      mapLookup m mid = some (replaceDir d)) :
    rewriteManifest dirs m = m := by
  induction dirs with
  | nil => rfl
  | cons d rest ih =>
    have hstep : rewriteStep m d = m := by
      cases hm : d.hasManifest with
      | false => simp [rewriteStep, hm]
      | true =>
        cases hid : d.manifestId with
        | none => simp [rewriteStep, hm, hid]
        | some mid =>
          simp only [rewriteStep, hm, if_true, hid]
          exact mapInsert_self m mid _
            (h d (List.mem_cons_self d rest) mid hm hid)
    rw [rewriteManifest_cons, hstep]
    exact ih fun d' hd' => h d' (List.mem_cons_of_mem d hd')

theorem effKeys_cons_skip (d : ScanDir) (rest : List ScanDir)
    (h : d.hasManifest = false ∨ d.manifestId = none) :
    effKeys (d :: rest) = effKeys rest := by
  rcases h with h | h
  · simp [effKeys, List.filterMap_cons, h]
  · cases hm : d.hasManifest <;> simp [effKeys, List.filterMap_cons, hm, h]

theorem effKeys_cons_write (d : ScanDir) (rest : List ScanDir) (mid : String)
    (h1 : d.hasManifest = true) (h2 : d.manifestId = some mid) :
    effKeys (d :: rest) = mid :: effKeys rest := by
  simp [effKeys, List.filterMap_cons, h1, h2]

theorem mapLookup_rewriteManifest_of_not_mem (dirs : List ScanDir)
    (m : GoMod) (k : String) (h : k ∉ effKeys dirs) :
    mapLookup (rewriteManifest dirs m) k = mapLookup m k := by
  induction dirs generalizing m with
  | nil => rfl
  | cons d rest ih =>
    cases hm : d.hasManifest with
    | false =>
      have h' : k ∉ effKeys rest := by
        rw [effKeys_cons_skip d rest (Or.inl hm)] at h; exact h
      rw [rewriteManifest_cons, show rewriteStep m d = m by
        simp [rewriteStep, hm]]
      exact ih m h' 
    | true =>
      cases hid : d.manifestId with
      | none =>
        have h' : k ∉ effKeys rest := by
          rw [effKeys_cons_skip d rest (Or.inr hid)] at h; exact h
        rw [rewriteManifest_cons, show rewriteStep m d = m by
          simp [rewriteStep, hm, hid]]
        exact ih m h' 
      | some mid =>
        rw [effKeys_cons_write d rest mid hm hid] at h
        have hne : k ≠ mid := fun hh => h (hh ▸ List.mem_cons_self mid _)
        have h' : k ∉ effKeys rest := fun hh => h (List.mem_cons_of_mem _ hh)
        rw [rewriteManifest_cons, show rewriteStep m d =
            mapInsert m mid (replaceDir d) by simp [rewriteStep, hm, hid],
          ih (mapInsert m mid (replaceDir d)) h',
          mapLookup_mapInsert_ne _ _ _ _ hne]

theorem mapLookup_rewriteManifest_final (dirs : List ScanDir) (m : GoMod)
    (hu : (effKeys dirs).Nodup) (d : ScanDir) (hd : d ∈ dirs) (mid : String)
    (h1 : d.hasManifest = true) (h2 : d.manifestId = some mid) :
    mapLookup (rewriteManifest dirs m) mid = some (replaceDir d) := by
  induction dirs generalizing m with
  | nil => simp at hd
  | cons d₀ rest ih =>
    rcases List.mem_cons.mp hd with hh | hh
    · subst hh
      rw [effKeys_cons_write d rest mid h1 h2] at hu
      have hnm : mid ∉ effKeys rest := (List.nodup_cons.mp hu).1
      rw [rewriteManifest_cons, show rewriteStep m d =
          mapInsert m mid (replaceDir d) by simp [rewriteStep, h1, h2],
        mapLookup_rewriteManifest_of_not_mem rest _ mid hnm,
        mapLookup_mapInsert_self]
    · have hu' : (effKeys rest).Nodup := by
        cases hm : d₀.hasManifest with
        | false =>
          rw [effKeys_cons_skip d₀ rest (Or.inl hm)] at hu; exact hu
        | true =>
          cases hid : d₀.manifestId with
          | none =>
            rw [effKeys_cons_skip d₀ rest (Or.inr hid)] at hu; exact hu
          | some mid₀ =>
            rw [effKeys_cons_write d₀ rest mid₀ hm hid] at hu
            exact (List.nodup_cons.mp hu).2
      rw [rewriteManifest_cons]
      exact ih (rewriteStep m d₀) hu' hh

theorem nodup_keys_rewriteManifest (dirs : List ScanDir) (m : GoMod)
    (h : (m.map Prod.fst).Nodup) :
    ((rewriteManifest dirs m).map Prod.fst).Nodup := by
  induction dirs generalizing m with
  | nil => exact h
  | cons d rest ih =>
    have hstep : ((rewriteStep m d).map Prod.fst).Nodup := by
      cases hm : d.hasManifest with
      | false => simpa [rewriteStep, hm] using h
      | true =>
        cases hid : d.manifestId with
        | none => simpa [rewriteStep, hm, hid] using h
        | some mid =>
          simpa [rewriteStep, hm, hid] using
            nodup_keys_mapInsert m mid (replaceDir d) h
    rw [rewriteManifest_cons]
    exact ih _ hstep

/-- C7: the manifest rewrite is idempotent — over an unchanged discovered
module set (with unique declared identifiers, as discovery guarantees, and a
well-formed starting manifest) running the replace loop a second time yields
exactly the manifest the first run produced, and that manifest carries no
duplicate directive for any identifier. -/
theorem c7_rewrite_idempotent (dirs : List ScanDir) (m : GoMod)
    (hu : (effKeys dirs).Nodup) (hm : (m.map Prod.fst).Nodup) :
    rewriteManifest dirs (rewriteManifest dirs m) = rewriteManifest dirs m ∧
    ((rewriteManifest dirs m).map Prod.fst).Nodup := by
  refine ⟨?_, nodup_keys_rewriteManifest dirs m hm⟩
  apply rewriteManifest_noop
  intro d hd mid h1 h2
  exact mapLookup_rewriteManifest_final dirs m hu d hd mid h1 h2

/-- C7 witness: one discovered module; a second rewrite run is a no-op and
the resulting manifest has no duplicate keys. -/
theorem c7_witness :
    rewriteManifest [⟨"alpha", true, some "org/alpha", true⟩]
        (rewriteManifest [⟨"alpha", true, some "org/alpha", true⟩] []) =
      rewriteManifest [⟨"alpha", true, some "org/alpha", true⟩] [] ∧
    ((rewriteManifest [⟨"alpha", true, some "org/alpha", true⟩] []).map
        Prod.fst).Nodup :=
  c7_rewrite_idempotent [⟨"alpha", true, some "org/alpha", true⟩] []
    (by decide) (by decide)

theorem eq_of_perm_of_map_eq (l₁ l₂ : List PolicyModule) (hp : l₁.Perm l₂)
    (hm : l₁.map PolicyModule.importPath = l₂.map PolicyModule.importPath)
    (hn : (l₁.map PolicyModule.importPath).Nodup) : l₁ = l₂ := by
  induction l₁ generalizing l₂ with
  | nil => exact hp.nil_eq
  | cons a t ih =>
    cases l₂ with
    | nil => exact absurd hp (by simp)
    | cons b t₂ =>
      simp only [List.map_cons, List.cons.injEq] at hm
      have hab : a.importPath = b.importPath := hm.1
      have hb : b ∈ a :: t := hp.mem_iff.mpr (List.mem_cons_self b t₂)
      have hba : b = a := by
        rcases List.mem_cons.mp hb with h | h
        · exact h
        · exfalso
          have hmem : b.importPath ∈ t.map PolicyModule.importPath :=
            List.mem_map_of_mem _ h
          rw [← hab] at hmem
          exact (List.nodup_cons.mp hn).1 hmem
      subst hba
      have hp' : t.Perm t₂ := hp.cons_inv
      rw [ih t₂ hp' hm.2 (List.nodup_cons.mp hn).2]

/-- C8 (modelled from the spec, §4.2/§8: the generator lives in the import
generator main, not among the sources at hand): aggregator
generation orders modules by the declared import identifier, so for a fixed
module set — however directory traversal permuted it — the generated source
text is byte-identical across runs, and the emission order is the
identifier-sorted order, not the traversal order. -/
theorem c8_generation_deterministic (ms₁ ms₂ : List PolicyModule)
    (hp : ms₁.Perm ms₂)
    (hn : (ms₁.map PolicyModule.importPath).Nodup) :
    emitAggregator ms₁ = emitAggregator ms₂ ∧
    List.Sorted modLe (sortModules ms₁) := by
  have hs₁ : List.Sorted modLe (sortModules ms₁) :=
    List.sorted_insertionSort modLe ms₁
  have hs₂ : List.Sorted modLe (sortModules ms₂) :=
    List.sorted_insertionSort modLe ms₂
  have hp₁ : (sortModules ms₁).Perm ms₁ := List.perm_insertionSort modLe ms₁
  have hp₂ : (sortModules ms₂).Perm ms₂ := List.perm_insertionSort modLe ms₂
  have hps : (sortModules ms₁).Perm (sortModules ms₂) :=
    hp₁.trans (hp.trans hp₂.symm)
  have hn₁ : ((sortModules ms₁).map PolicyModule.importPath).Nodup :=
    ((hp₁.symm).map PolicyModule.importPath).nodup hn
  have hsm₁ : List.Sorted (fun a b => a ≤ b)
      ((sortModules ms₁).map PolicyModule.importPath) :=
    List.Pairwise.map PolicyModule.importPath (fun a b hab => hab) hs₁
  have hsm₂ : List.Sorted (fun a b => a ≤ b)
      ((sortModules ms₂).map PolicyModule.importPath) :=
    List.Pairwise.map PolicyModule.importPath (fun a b hab => hab) hs₂
  have hms : (sortModules ms₁).map PolicyModule.importPath =
      (sortModules ms₂).map PolicyModule.importPath :=
    List.eq_of_perm_of_sorted (hps.map PolicyModule.importPath) hsm₁ hsm₂
  have hsort : sortModules ms₁ = sortModules ms₂ :=
    eq_of_perm_of_map_eq (sortModules ms₁) (sortModules ms₂) hps hms hn₁
  exact ⟨congrArg emitSorted hsort, hs₁⟩

/-- C8 witness: the same two modules presented in either traversal order
generate byte-identical aggregator source. -/
theorem c8_witness :
    emitAggregator [⟨"beta", "org/beta"⟩, ⟨"alpha", "org/alpha"⟩] =
      emitAggregator [⟨"alpha", "org/alpha"⟩, ⟨"beta", "org/beta"⟩] :=
  (c8_generation_deterministic
    [⟨"beta", "org/beta"⟩, ⟨"alpha", "org/alpha"⟩]
    [⟨"alpha", "org/alpha"⟩, ⟨"beta", "org/beta"⟩]
    (List.Perm.swap (⟨"alpha", "org/alpha"⟩ : PolicyModule)
      (⟨"beta", "org/beta"⟩ : PolicyModule) [])
    (by decide)).1

end PolicyEngine
